import Mathlib

/-!
# tcp-zero: message codec and server shutdown

A shallow embedding of `server/message.go` (the framing codec) and of the
shutdown paths of `server/server.go`, with the properties of the written
specification stated over it.

Conventions of the embedding:

* a Go `[]byte` is a `Slice`: the bytes below `len` (`vis`) and the bytes of
  the backing array between `len` and `cap` (`spare`), so that a slice
  expression is in range exactly when it is in range in Go;
* `uint32` values are natural numbers below `2^32`;
* a Go call either returns or panics (`Ret`); an `error` result is an
  `Option` next to the returned value;
* the loop of `DecodeMsgs` is driven by a fuel that counts calls of `Decode`.
-/

namespace TcpZero

/-! ## Bytes, slices, results -/

/-- One octet. -/
abbrev Byte := Fin 256

/-- Conversion `byte(x)`: keeps the low eight bits. -/
def byte (x : Nat) : Byte := ⟨x % 256, Nat.mod_lt _ (by decide)⟩

/-- Go byte slice: `vis` holds elements `0 .. len-1`, `spare` the elements of
the backing array from `len` up to `cap`. -/
structure Slice where
  vis : List Byte
  spare : List Byte
deriving DecidableEq, Repr

/-- Builtin `len(b)`. -/
def Slice.len (b : Slice) : Nat := b.vis.length

/-- Builtin `cap(b)`. -/
def Slice.cap (b : Slice) : Nat := b.vis.length + b.spare.length

/-- Slice expression `b[lo:hi]`; in range iff `lo ≤ hi ≤ cap(b)`, `none` is the
run-time panic "slice bounds out of range". -/
def Slice.slice (b : Slice) (lo hi : Nat) : Option Slice :=
  if lo ≤ hi ∧ hi ≤ b.cap then
    some ⟨((b.vis ++ b.spare).drop lo).take (hi - lo), (b.vis ++ b.spare).drop hi⟩
  else none

/-- Slice expression `b[lo:]`, which is `b[lo:len(b)]`. -/
def Slice.sliceFrom (b : Slice) (lo : Nat) : Option Slice := b.slice lo b.len

/-- Slice expression `b[:hi]`, which is `b[0:hi]`. -/
def Slice.sliceTo (b : Slice) (hi : Nat) : Option Slice := b.slice 0 hi

/-- Run-time panics that the modelled code can raise. -/
inductive Panic where
  | sliceBounds
  | indexOutOfRange
  | makesliceLen
  | closeOfNilChannel
  | closeOfClosedChannel
  | sendOnClosedChannel
deriving DecidableEq, Repr

/-- Errors of `io.ReadFull`, as returned through `binary.Read`. -/
inductive IOErr where
  | EOF
  | ErrUnexpectedEOF
deriving DecidableEq, Repr

/-- Outcome of a call: it returns a value or it panics. -/
inductive Ret (α : Type) where
  | done (a : α)
  | panic (p : Panic)
deriving DecidableEq, Repr

/-! ## `encoding/binary` -/

/-- Library `binary.BigEndian.PutUint32(b, v)` on a four byte buffer: the
resulting contents of `b`. -/
def PutUint32 (v : Nat) : List Byte :=
  [byte (v >>> 24), byte (v >>> 16), byte (v >>> 8), byte v]

/-- Library `binary.BigEndian.Uint32(b)`; it indexes `b[3]` first, so a slice
shorter than four bytes is an index panic (`none`). -/
def Uint32 : List Byte → Option Nat
  | b0 :: b1 :: b2 :: b3 :: _ =>
    some (b3.val ||| (b2.val <<< 8) ||| (b1.val <<< 16) ||| (b0.val <<< 24))
  | _ => none

/-- Big-endian value of four bytes, as arithmetic: what `Uint32` computes with
shifts and ors (`Uint32_cons`). -/
def be32 (b0 b1 b2 b3 : Byte) : Nat :=
  b3.val + 2 ^ 8 * b2.val + 2 ^ 16 * b1.val + 2 ^ 24 * b0.val

/-- Library `binary.Read(bytes.NewReader(src), binary.BigEndian, ret)` for a
destination `ret` of `n` bytes: `io.ReadFull` fills the destination or fails; a
destination of length zero reads nothing and succeeds. -/
def binaryRead (src : List Byte) (n : Nat) : Except IOErr (List Byte) :=
  if n = 0 then .ok []
  else if src.length = 0 then .error .EOF
  else if src.length < n then .error .ErrUnexpectedEOF
  else .ok (src.take n)

/-- Conversion `int32(x)` of a `uint32`: two's complement reinterpretation. -/
def int32 (x : Nat) : Int :=
  if x % 2 ^ 32 < 2 ^ 31 then ((x % 2 ^ 32 : Nat) : Int) else ((x % 2 ^ 32 : Nat) : Int) - 2 ^ 32

/-! ## `server/message.go` -/

def lenIdx : Nat := 4

def msgIdx : Nat := 8

/-- The `message` struct. -/
structure message where
  seq : Nat
  length : Nat
  msg : List Byte
deriving DecidableEq, Repr

/-- `NewMsg(seq, msg)`: the payload is the bytes of the string, the length
field is `uint32(len(...))`. -/
def NewMsg (seq : Nat) (msg : List Byte) : message :=
  { seq := seq, length := msg.length % 2 ^ 32, msg := msg }

/-- `(*message).Msg`. -/
def message.Msg (m : message) : List Byte := m.msg

/-- `(*message).Len`: the actual payload length, not the length field. -/
def message.Len (m : message) : Nat := m.msg.length

/-- `encode(b)`: `binary.Write` of a byte slice into a fresh `bytes.Buffer`,
which copies the bytes and cannot fail. -/
def encode (b : List Byte) : List Byte × Option IOErr := (b, none)

/-- `decode(b, n)`: `make([]byte, n)` panics for a negative `n`; otherwise
`binary.Read` fills the new slice from `b`, and on a read error the result is
the empty slice together with the error. -/
def decode (b : Slice) (n : Int) : Ret (List Byte × Option IOErr) :=
  if n < 0 then .panic .makesliceLen
  else
    match binaryRead b.vis n.toNat with
    | .error err => .done ([], some err)
    | .ok ret => .done (ret, none)

/-- `(*message).Encode`: the visible bytes of the returned slice and the
returned error. -/
def message.Encode (m : message) : List Byte × Option IOErr :=
  let buf : List Byte := (PutUint32 m.seq).take lenIdx
  let buf := buf ++ (PutUint32 m.length).take lenIdx
  match encode m.msg with
  | (_, some err) => ([], some err)
  | (b, none) => (buf ++ b, none)

/-- `(*message).Decode`: the receiver after the call and the returned error.
The error of the third `decode` is assigned and then dropped by `return nil`. -/
def message.Decode (m : message) (b : Slice) : Ret (message × Option IOErr) :=
  match b.sliceTo lenIdx with
  | none => .panic .sliceBounds
  | some s1 =>
    match decode s1 lenIdx with
    | .panic p => .panic p
    | .done (_, some err) => .done (m, some err)
    | .done (seq, none) =>
      match Uint32 seq with
      | none => .panic .indexOutOfRange
      | some vseq =>
        let m := { m with seq := vseq }
        match b.slice lenIdx msgIdx with
        | none => .panic .sliceBounds
        | some s2 =>
          match decode s2 lenIdx with
          | .panic p => .panic p
          | .done (_, some err) => .done (m, some err)
          | .done (l, none) =>
            match Uint32 l with
            | none => .panic .indexOutOfRange
            | some vlen =>
              let m := { m with length := vlen }
              match b.sliceFrom msgIdx with
              | none => .panic .sliceBounds
              | some s3 =>
                match decode s3 (int32 m.length) with
                | .panic p => .panic p
                | .done (ret, _) => .done ({ m with msg := ret }, none)

/-- Loop of `DecodeMsgs`, one unit of fuel per iteration (per call of
`Decode`); `none` means the fuel ran out before the loop ended. The result is
the pair of named results `(msgs, err)`. -/
def DecodeMsgsLoop : Nat → List message → Slice → Option (Ret (List message × Option IOErr))
  | 0, _, _ => none
  | fuel + 1, msgs, b =>
    match (NewMsg 0 []).Decode b with
    | .panic p => some (.panic p)
    | .done (_, some err) => some (.done (msgs, some err))
    | .done (msg, none) =>
      let msgs := msgs ++ [msg]
      match b.sliceFrom (msgIdx + msg.Len) with
      | none => some (.panic .sliceBounds)
      | some b1 =>
        if b1.len = 0 then some (.done (msgs, none))
        else DecodeMsgsLoop fuel msgs b1

/-- `DecodeMsgs(b)`, run with `len(b)/8 + 1` iterations of fuel. -/
def DecodeMsgs (b : Slice) : Option (Ret (List message × Option IOErr)) :=
  DecodeMsgsLoop (b.len / 8 + 1) [] b

/-- Concatenation of the `Encode` outputs of a list of messages. -/
def wire : List message → List Byte
  | [] => []
  | m :: ms => m.Encode.1 ++ wire ms

/-- Messages built by `NewMsg` from a list of `(seq, payload)` pairs. -/
def newMsgs (ps : List (Nat × List Byte)) : List message :=
  ps.map fun p => NewMsg p.1 p.2

/-! ## `server/server.go`: shutdown -/

/-- State of the channel `srv.close`. -/
inductive Chan where
  | nilChan
  | live
  | closed
deriving DecidableEq, Repr

/-- Observable actions of the server methods, in the order they happen. -/
inductive Effect where
  | closeChan
  | hubDestroy
  | listenerClose
  | sleep
  | accepted (conn : Nat)
deriving DecidableEq, Repr

/-- How a server method ends: it returns its `error`, it panics, or it blocks
for ever. -/
inductive Outcome where
  | returned (err : Option String)
  | panicked (p : Panic)
  | blocked
deriving DecidableEq, Repr

/-- Interface `interfaces.Hub`, restricted to the method used at shutdown:
`Destroy` gives the registry after the call and the returned error. -/
structure HubOps (H : Type) where
  Destroy : H → H × Option String

/-- The `Server` struct: `Protocol` and `listener` are kept as presence flags,
`once` is the done flag of the `sync.Once`, `hubMutex` tells whether the mutex
is held. -/
structure Server (H : Type) where
  Addr : String
  Protocol : Bool
  listener : Bool
  close : Chan
  once : Bool
  hubMutex : Bool
  Hub : Option H
deriving DecidableEq, Repr

/-- Result of running a server method: the server afterwards, the actions
performed and how the call ended. -/
structure Step (H : Type) where
  srv : Server H
  effects : List Effect
  outcome : Outcome
deriving DecidableEq, Repr

/-- `NewServer(addr, protocol)`: a fresh channel, a fresh `Once`, no hub. -/
def NewServer {H : Type} (addr : String) (protocol : Bool) : Server H :=
  { Addr := addr, Protocol := protocol, listener := false, close := .live, once := false,
    hubMutex := false, Hub := none }

/-- `(*Server).Destroy`: nothing without a hub; otherwise `Hub.Destroy` under
`hubMutex` (taking a held mutex blocks). -/
def Server.Destroy {H : Type} (ops : HubOps H) (srv : Server H) : Step H :=
  match srv.Hub with
  | none => ⟨srv, [], .returned none⟩
  | some h =>
    if srv.hubMutex then ⟨srv, [], .blocked⟩
    else
      let r := ops.Destroy h
      ⟨{ srv with Hub := some r.1 }, [.hubDestroy], .returned r.2⟩

/-- `(*Server).Close`: `once.Do` runs its function only while the done flag is
unset and sets the flag when the function returns or panics; the function closes
`srv.close` (a panic on a nil or closed channel) and calls `Destroy`, whose
error is dropped. -/
def Server.Close {H : Type} (ops : HubOps H) (srv : Server H) : Step H :=
  if srv.once then ⟨srv, [], .returned none⟩
  else
    match srv.close with
    | .nilChan => ⟨{ srv with once := true }, [], .panicked .closeOfNilChannel⟩
    | .closed => ⟨{ srv with once := true }, [], .panicked .closeOfClosedChannel⟩
    | .live =>
      let d := Server.Destroy ops { srv with close := .closed }
      match d.outcome with
      | .returned _ => ⟨{ d.srv with once := true }, .closeChan :: d.effects, .returned none⟩
      | .panicked p => ⟨{ d.srv with once := true }, .closeChan :: d.effects, .panicked p⟩
      | .blocked => ⟨d.srv, .closeChan :: d.effects, .blocked⟩

/-- What one call of `listener.Accept()` gives. -/
inductive AcceptResult where
  | conn (c : Nat)
  | temporary
  | fatal (err : String)
deriving DecidableEq, Repr

/-- How the accept loop is left: by a `return`, or never (blocked in
`Accept`). -/
inductive LoopExit where
  | ret (err : Option String)
  | stuck
deriving DecidableEq, Repr

/-- The `for` loop of `Serve` against the results of the successive `Accept`
calls. The `select` takes the receive branch exactly when `srv.close` is
closed (nothing sends on it while the loop runs); with no result left `Accept`
blocks; a session and its goroutines are recorded as `accepted`. -/
def serveLoop {H : Type} (srv : Server H) : List AcceptResult → List Effect × LoopExit
  | [] => if srv.close = .closed then ([], .ret none) else ([], .stuck)
  | a :: rest =>
    if srv.close = .closed then ([], .ret none)
    else
      match a with
      | .temporary =>
        let r := serveLoop srv rest
        (.sleep :: r.1, r.2)
      | .fatal err => ([], .ret (some err))
      | .conn c =>
        let r := serveLoop srv rest
        (.accepted c :: r.1, r.2)

/-- `(*Server).Serve(l)`: `srv.listener = l`, the loop, then on a `return` the
deferred function: `srv.listener.Close()` (recorded as an action; the field
keeps its value) followed by a send on `srv.close`. The send panics on a
closed channel and otherwise waits for a receiver (`recv`: some goroutine
receives from the channel). -/
def Server.Serve {H : Type} (srv : Server H) (script : List AcceptResult) (recv : Bool) :
    Step H :=
  let srv := { srv with listener := true }
  let r := serveLoop srv script
  match r.2 with
  | .stuck => ⟨srv, r.1, .blocked⟩
  | .ret err =>
    let effects := r.1 ++ [.listenerClose]
    match srv.close with
    | .closed => ⟨srv, effects, .panicked .sendOnClosedChannel⟩
    | .live => if recv then ⟨srv, effects, .returned err⟩ else ⟨srv, effects, .blocked⟩
    | .nilChan => ⟨srv, effects, .blocked⟩

/-- States of a server as `NewServer` and the exported methods leave them:
the channel exists, it is closed exactly when the `Once` has fired, and the
mutex is free between calls. -/
def Server.inv {H : Type} (srv : Server H) : Prop :=
  srv.close ≠ .nilChan ∧ (srv.once = true ↔ srv.close = .closed) ∧ srv.hubMutex = false

instance {H : Type} (srv : Server H) : Decidable srv.inv := by
  unfold Server.inv; exact inferInstance

/-- A hub whose registry is a list of session identities; `Destroy` empties
it. -/
def listHub : HubOps (List Nat) := ⟨fun _ => ([], none)⟩

/-! ## Lemmas on the library model -/

theorem Uint32_cons (b0 b1 b2 b3 : Byte) (t : List Byte) :
    Uint32 (b0 :: b1 :: b2 :: b3 :: t) = some (be32 b0 b1 b2 b3) := by
  have h3 : b3.val < 2 ^ 8 := b3.isLt
  have h2 : b2.val < 2 ^ 8 := b2.isLt
  have h1 : b1.val < 2 ^ 8 := b1.isLt
  have e1 : b3.val ||| 2 ^ 8 * b2.val = 2 ^ 8 * b2.val + b3.val := by
    rw [Nat.lor_comm]; exact (Nat.mul_add_lt_is_or h3 _).symm
  have e2 : (2 ^ 8 * b2.val + b3.val) ||| 2 ^ 16 * b1.val
      = 2 ^ 16 * b1.val + (2 ^ 8 * b2.val + b3.val) := by
    rw [Nat.lor_comm]; exact (Nat.mul_add_lt_is_or (by omega) _).symm
  have e3 : (2 ^ 16 * b1.val + (2 ^ 8 * b2.val + b3.val)) ||| 2 ^ 24 * b0.val
      = 2 ^ 24 * b0.val + (2 ^ 16 * b1.val + (2 ^ 8 * b2.val + b3.val)) := by
    rw [Nat.lor_comm]; exact (Nat.mul_add_lt_is_or (by omega) _).symm
  simp only [Uint32, be32, Nat.shiftLeft_eq, Nat.mul_comm _ (2 ^ _), e1, e2, e3]
  congr 1; omega

theorem Uint32_lt (l : List Byte) (v : Nat) (h : Uint32 l = some v) : v < 2 ^ 32 := by
  match l, h with
  | b0 :: b1 :: b2 :: b3 :: t, h =>
    rw [Uint32_cons, be32] at h
    have h3 : b3.val < 256 := b3.isLt
    have h2 : b2.val < 256 := b2.isLt
    have h1 : b1.val < 256 := b1.isLt
    have h0 : b0.val < 256 := b0.isLt
    simp only [Option.some.injEq] at h
    omega

theorem Uint32_PutUint32 (v : Nat) (h : v < 2 ^ 32) (t : List Byte) :
    Uint32 (PutUint32 v ++ t) = some v := by
  simp only [PutUint32, List.cons_append, List.nil_append, Uint32_cons, be32, byte,
    Nat.shiftRight_eq_div_pow]
  congr 1
  omega

theorem PutUint32_length (v : Nat) : (PutUint32 v).length = 4 := rfl

/-! ## Lemmas on `decode` and `Decode` -/

theorem binaryRead_eq (src : List Byte) (n : Nat) :
    binaryRead src n =
      if n ≤ src.length then .ok (src.take n)
      else .error (if src.length = 0 then .EOF else .ErrUnexpectedEOF) := by
  unfold binaryRead
  by_cases h0 : n = 0
  · subst h0; simp
  · by_cases h1 : src.length = 0
    · have : ¬ n ≤ src.length := by omega
      simp [h0, h1, this]
    · by_cases h2 : src.length < n
      · have : ¬ n ≤ src.length := by omega
        simp [h0, h1, h2, this]
      · have : n ≤ src.length := by omega
        simp [h0, h1, h2, this]

theorem int32_neg_iff (v : Nat) (hv : v < 2 ^ 32) : int32 v < 0 ↔ 2 ^ 31 ≤ v := by
  unfold int32
  rw [Nat.mod_eq_of_lt hv]
  split <;> omega

theorem int32_toNat (v : Nat) (hv : v < 2 ^ 31) : (int32 v).toNat = v := by
  unfold int32
  rw [Nat.mod_eq_of_lt (by omega), if_pos hv]
  exact Int.toNat_ofNat v

theorem decode_int32 (s : Slice) (v : Nat) (hv : v < 2 ^ 32) :
    decode s (int32 v) =
      if 2 ^ 31 ≤ v then .panic .makesliceLen
      else if v ≤ s.vis.length then .done (s.vis.take v, none)
      else .done ([], some (if s.vis.length = 0 then .EOF else .ErrUnexpectedEOF)) := by
  unfold decode
  by_cases h : 2 ^ 31 ≤ v
  · rw [if_pos ((int32_neg_iff v hv).2 h), if_pos h]
  · rw [if_neg (fun hn => h ((int32_neg_iff v hv).1 hn)), if_neg h,
      int32_toNat v (by omega), binaryRead_eq]
    by_cases h2 : v ≤ s.vis.length <;> simp [h2]

theorem decode_lenIdx (b0 b1 b2 b3 : Byte) (sp : List Byte) :
    decode ⟨[b0, b1, b2, b3], sp⟩ lenIdx = .done ([b0, b1, b2, b3], none) := by
  simp [decode, lenIdx, binaryRead]

theorem be32_lt (b0 b1 b2 b3 : Byte) : be32 b0 b1 b2 b3 < 2 ^ 32 := by
  have h3 : b3.val < 256 := b3.isLt
  have h2 : b2.val < 256 := b2.isLt
  have h1 : b1.val < 256 := b1.isLt
  have h0 : b0.val < 256 := b0.isLt
  unfold be32
  omega

theorem sliceFrom_eq (b : Slice) (lo : Nat) (h : lo ≤ b.len) :
    b.sliceFrom lo = some ⟨b.vis.drop lo, b.spare⟩ := by
  unfold Slice.sliceFrom Slice.slice
  unfold Slice.len at h ⊢
  rw [if_pos ⟨h, by unfold Slice.cap; omega⟩]
  congr 2
  · rw [List.drop_append_of_le_length h, List.take_append_of_le_length (by simp)]
    exact List.take_of_length_le (by simp)
  · exact List.drop_left _ _

theorem sliceFrom_none (b : Slice) (lo : Nat) (h : b.len < lo) : b.sliceFrom lo = none := by
  unfold Slice.sliceFrom Slice.slice
  rw [if_neg (by omega)]

theorem sliceTo_lenIdx (b0 b1 b2 b3 : Byte) (t sp : List Byte) :
    (⟨b0 :: b1 :: b2 :: b3 :: t, sp⟩ : Slice).sliceTo lenIdx = some ⟨[b0, b1, b2, b3], t ++ sp⟩ := by
  unfold Slice.sliceTo Slice.slice
  rw [if_pos (by simp [Slice.cap, lenIdx]; omega)]
  rfl

theorem slice_lenIdx_msgIdx (b0 b1 b2 b3 b4 b5 b6 b7 : Byte) (t sp : List Byte) :
    (⟨b0 :: b1 :: b2 :: b3 :: b4 :: b5 :: b6 :: b7 :: t, sp⟩ : Slice).slice lenIdx msgIdx
      = some ⟨[b4, b5, b6, b7], t ++ sp⟩ := by
  unfold Slice.slice
  rw [if_pos (by simp [Slice.cap, lenIdx, msgIdx]; omega)]
  rfl

/-- What `Decode` does on a buffer that holds at least the eight header
bytes. -/
theorem Decode_cons8 (m : message) (b0 b1 b2 b3 b4 b5 b6 b7 : Byte) (rest spare : List Byte) :
    m.Decode ⟨b0 :: b1 :: b2 :: b3 :: b4 :: b5 :: b6 :: b7 :: rest, spare⟩ =
      if 2 ^ 31 ≤ be32 b4 b5 b6 b7 then .panic .makesliceLen
      else .done (⟨be32 b0 b1 b2 b3, be32 b4 b5 b6 b7,
        if be32 b4 b5 b6 b7 ≤ rest.length then rest.take (be32 b4 b5 b6 b7) else []⟩, none) := by
  have hlt := be32_lt b4 b5 b6 b7
  unfold message.Decode
  rw [sliceTo_lenIdx, slice_lenIdx_msgIdx, sliceFrom_eq _ _ (by simp [Slice.len, msgIdx])]
  simp only [decode_lenIdx, Uint32_cons, decode_int32 _ _ hlt, msgIdx,
    List.drop_succ_cons, List.drop_zero]
  by_cases h : 2 ^ 31 ≤ be32 b4 b5 b6 b7
  · simp only [if_pos h]
  · simp only [if_neg h]
    by_cases h2 : be32 b4 b5 b6 b7 ≤ rest.length
    · simp only [if_pos h2]
    · simp only [if_neg h2]

theorem exists_cons4 {α : Type} (l : List α) (h : 4 ≤ l.length) :
    ∃ a0 a1 a2 a3 t, l = a0 :: a1 :: a2 :: a3 :: t := by
  match l, h with
  | a0 :: a1 :: a2 :: a3 :: t, _ => exact ⟨a0, a1, a2, a3, t, rfl⟩
  | [], h => simp at h
  | [_], h => simp at h
  | [_, _], h => simp at h
  | [_, _, _], h => simp at h

theorem exists_cons8 {α : Type} (l : List α) (h : 8 ≤ l.length) :
    ∃ a0 a1 a2 a3 a4 a5 a6 a7 t, l = a0 :: a1 :: a2 :: a3 :: a4 :: a5 :: a6 :: a7 :: t := by
  obtain ⟨a0, a1, a2, a3, t, rfl⟩ := exists_cons4 l (by omega)
  obtain ⟨a4, a5, a6, a7, t2, rfl⟩ := exists_cons4 t (by simp at h; omega)
  exact ⟨a0, a1, a2, a3, a4, a5, a6, a7, t2, rfl⟩

theorem slice_of_all (b : Slice) (lo hi : Nat) (h : lo ≤ hi ∧ hi ≤ (b.vis ++ b.spare).length) :
    b.slice lo hi
      = some ⟨((b.vis ++ b.spare).drop lo).take (hi - lo), (b.vis ++ b.spare).drop hi⟩ := by
  unfold Slice.slice
  rw [if_pos (by simpa [Slice.cap] using h)]

theorem slice_none (b : Slice) (lo hi : Nat) (h : (b.vis ++ b.spare).length < hi) :
    b.slice lo hi = none := by
  unfold Slice.slice
  rw [if_neg]
  simp only [Slice.cap, List.length_append] at h ⊢
  omega

/-- On a buffer shorter than the header, `Decode` ends in a slice-bounds
panic whatever the capacity of the buffer. -/
theorem Decode_short (m : message) (b : Slice) (h : b.len < 8) :
    m.Decode b = .panic .sliceBounds := by
  unfold message.Decode
  by_cases h4 : (b.vis ++ b.spare).length < 4
  · rw [Slice.sliceTo, slice_none b 0 lenIdx (by simpa [lenIdx] using h4)]
  · obtain ⟨a0, a1, a2, a3, t, hall⟩ := exists_cons4 (b.vis ++ b.spare) (by omega)
    rw [Slice.sliceTo, slice_of_all b 0 lenIdx (by rw [hall]; simp [lenIdx])]
    simp only [hall, lenIdx, List.drop_zero, Nat.sub_zero, List.take_succ_cons, List.take_zero,
      List.drop_succ_cons]
    rw [← lenIdx, decode_lenIdx]
    simp only [Uint32_cons]
    by_cases h8 : (b.vis ++ b.spare).length < 8
    · rw [slice_none b lenIdx msgIdx (by simpa [msgIdx] using h8)]
    · obtain ⟨a4, a5, a6, a7, t2, ht⟩ := exists_cons4 t (by rw [hall] at h8; simp at h8; omega)
      rw [slice_of_all b lenIdx msgIdx (by rw [hall, ht]; simp [lenIdx, msgIdx])]
      simp only [hall, ht, lenIdx, msgIdx, Nat.reduceSub, List.take_succ_cons, List.take_zero,
        List.drop_succ_cons, List.drop_zero]
      rw [← lenIdx, decode_lenIdx]
      simp only [Uint32_cons]
      rw [sliceFrom_none b 8 h]

/-- A call of `Decode` that returns never returns an error, and it leaves
the payload within the bytes that follow the header. -/
theorem Decode_done (m m1 : message) (b : Slice) (e : Option IOErr)
    (h : m.Decode b = .done (m1, e)) : e = none ∧ msgIdx + m1.Len ≤ b.len := by
  by_cases h8 : b.len < 8
  · rw [Decode_short m b h8] at h
    cases h
  · obtain ⟨vis, spare⟩ := b
    obtain ⟨a0, a1, a2, a3, a4, a5, a6, a7, rest, rfl⟩ :=
      exists_cons8 vis (by simp only [Slice.len] at h8; omega)
    rw [Decode_cons8] at h
    split at h
    · cases h
    · simp only [Ret.done.injEq, Prod.mk.injEq] at h
      obtain ⟨hm, he⟩ := h
      subst hm
      refine ⟨he.symm, ?_⟩
      simp only [message.Len, Slice.len, msgIdx, List.length_cons]
      split
      · rw [List.length_take]; omega
      · simp

/-! ## Lemmas on the loop of `DecodeMsgs` -/

theorem loop_terminates (fuel : Nat) : ∀ (acc : List message) (b : Slice),
    b.len < 8 * fuel → ∃ r, DecodeMsgsLoop fuel acc b = some r := by
  induction fuel with
  | zero => intro acc b h; omega
  | succ f ih =>
    intro acc b h
    unfold DecodeMsgsLoop
    cases hD : (NewMsg 0 []).Decode b with
    | panic p => exact ⟨_, rfl⟩
    | done x =>
      obtain ⟨m1, e⟩ := x
      obtain ⟨he, hlen⟩ := Decode_done _ _ _ _ hD
      subst he
      simp only
      rw [sliceFrom_eq b _ hlen]
      simp only
      split
      · exact ⟨_, rfl⟩
      · apply ih
        simp only [Slice.len, List.length_drop, msgIdx] at hlen h ⊢
        omega

theorem loop_mono (fuel : Nat) : ∀ (k : Nat) (acc : List message) (b : Slice)
    (r : Ret (List message × Option IOErr)),
    DecodeMsgsLoop fuel acc b = some r → DecodeMsgsLoop (fuel + k) acc b = some r := by
  induction fuel with
  | zero => intro k acc b r h; simp [DecodeMsgsLoop] at h
  | succ f ih =>
    intro k acc b r h
    rw [show f + 1 + k = (f + k) + 1 by omega]
    unfold DecodeMsgsLoop at h ⊢
    cases hD : (NewMsg 0 []).Decode b with
    | panic p => rw [hD] at h; exact h
    | done x =>
      obtain ⟨m1, e⟩ := x
      rw [hD] at h
      cases e with
      | some err => exact h
      | none =>
        simp only at h ⊢
        cases hS : b.sliceFrom (msgIdx + m1.Len) with
        | none => rw [hS] at h; exact h
        | some b1 =>
          rw [hS] at h
          simp only at h ⊢
          split
          · rename_i h0; rw [if_pos h0] at h; exact h
          · rename_i h0; rw [if_neg h0] at h; exact ih k _ _ _ h

/-- No run of the loop returns a non-nil error: `Decode` either panics or
returns nil, so the error branch of `DecodeMsgs` is dead. -/
theorem loop_no_error (fuel : Nat) : ∀ (acc msgs : List message) (b : Slice)
    (e : Option IOErr), DecodeMsgsLoop fuel acc b = some (.done (msgs, e)) → e = none := by
  induction fuel with
  | zero => intro acc msgs b e h; simp [DecodeMsgsLoop] at h
  | succ f ih =>
    intro acc msgs b e h
    unfold DecodeMsgsLoop at h
    cases hD : (NewMsg 0 []).Decode b with
    | panic p => rw [hD] at h; cases h
    | done x =>
      obtain ⟨m1, e1⟩ := x
      obtain ⟨he, _⟩ := Decode_done _ _ _ _ hD
      subst he
      rw [hD] at h
      simp only at h
      cases hS : b.sliceFrom (msgIdx + m1.Len) with
      | none => rw [hS] at h; cases h
      | some b1 =>
        rw [hS] at h
        simp only at h
        split at h
        · cases h; rfl
        · exact ih _ _ _ _ h

/-! ## Lemmas on encoded frames -/

theorem be32_byte (v : Nat) (h : v < 2 ^ 32) :
    be32 (byte (v >>> 24)) (byte (v >>> 16)) (byte (v >>> 8)) (byte v) = v := by
  simp only [be32, byte, Nat.shiftRight_eq_div_pow]
  omega

theorem Encode_eq (m : message) :
    m.Encode = (PutUint32 m.seq ++ PutUint32 m.length ++ m.msg, none) := rfl

theorem Encode_length (m : message) : m.Encode.1.length = 8 + m.msg.length := by
  rw [Encode_eq]
  simp only [List.length_append, PutUint32_length]

theorem Decode_Encode_append (m0 m : message) (rest spare : List Byte)
    (hseq : m.seq < 2 ^ 32) (hlen : m.length < 2 ^ 32) :
    m0.Decode ⟨m.Encode.1 ++ rest, spare⟩ =
      if 2 ^ 31 ≤ m.length then .panic .makesliceLen
      else .done (⟨m.seq, m.length,
        if m.length ≤ (m.msg ++ rest).length then (m.msg ++ rest).take m.length else []⟩,
        none) := by
  rw [Encode_eq]
  simp only [PutUint32, List.cons_append, List.nil_append, List.append_assoc]
  rw [Decode_cons8, be32_byte _ hseq, be32_byte _ hlen]

theorem Decode_NewMsg (m0 : message) (seq : Nat) (p rest spare : List Byte)
    (hseq : seq < 2 ^ 32) (hlen : p.length < 2 ^ 31) :
    m0.Decode ⟨(NewMsg seq p).Encode.1 ++ rest, spare⟩ = .done (NewMsg seq p, none) := by
  have hmod : p.length % 2 ^ 32 = p.length := Nat.mod_eq_of_lt (by omega)
  rw [Decode_Encode_append m0 _ rest spare hseq (by simp only [NewMsg]; omega)]
  simp only [NewMsg, hmod]
  rw [if_neg (by omega), if_pos (by simp), List.take_left' rfl]

theorem Decode_NewMsg_panic (m0 : message) (seq : Nat) (p rest spare : List Byte)
    (hseq : seq < 2 ^ 32) (hlen : 2 ^ 31 ≤ p.length % 2 ^ 32) :
    m0.Decode ⟨(NewMsg seq p).Encode.1 ++ rest, spare⟩ = .panic .makesliceLen := by
  rw [Decode_Encode_append m0 _ rest spare hseq
    (by simp only [NewMsg]; exact Nat.mod_lt _ (by decide))]
  simp only [NewMsg]
  rw [if_pos hlen]

theorem loop_frame (fuel seq : Nat) (acc : List message) (p rest spare : List Byte)
    (hseq : seq < 2 ^ 32) (hlen : p.length < 2 ^ 31) :
    DecodeMsgsLoop (fuel + 1) acc ⟨(NewMsg seq p).Encode.1 ++ rest, spare⟩ =
      if rest.length = 0 then some (.done (acc ++ [NewMsg seq p], none))
      else DecodeMsgsLoop fuel (acc ++ [NewMsg seq p]) ⟨rest, spare⟩ := by
  have hE : (NewMsg seq p).Encode.1.length = msgIdx + (NewMsg seq p).Len := by
    rw [Encode_length]; rfl
  conv_lhs => unfold DecodeMsgsLoop
  rw [Decode_NewMsg _ seq p rest spare hseq hlen]
  simp only
  rw [sliceFrom_eq _ _ (by simp only [Slice.len, List.length_append]; omega)]
  simp only [List.drop_left' hE, Slice.len]

theorem wire_length (ms : List message) : 8 * ms.length ≤ (wire ms).length := by
  induction ms with
  | nil => simp [wire]
  | cons m ms ih =>
    simp only [wire, List.length_append, List.length_cons, Encode_length]
    omega

theorem loop_wire (ps : List (Nat × List Byte)) : ∀ (fuel : Nat) (acc : List message)
    (spare : List Byte), ps ≠ [] → ps.length ≤ fuel →
    (∀ q ∈ ps, q.1 < 2 ^ 32) → (∀ q ∈ ps, q.2.length < 2 ^ 31) →
    DecodeMsgsLoop fuel acc ⟨wire (newMsgs ps), spare⟩
      = some (.done (acc ++ newMsgs ps, none)) := by
  induction ps with
  | nil => intro fuel acc spare hne; exact absurd rfl hne
  | cons q qs ih =>
    intro fuel acc spare _ hf hs hl
    obtain ⟨f, rfl⟩ : ∃ f, fuel = f + 1 := ⟨fuel - 1, by simp at hf; omega⟩
    have hq1 := hs q (List.mem_cons_self _ _)
    have hq2 := hl q (List.mem_cons_self _ _)
    simp only [newMsgs, List.map_cons, wire]
    rw [loop_frame f q.1 acc q.2 _ spare hq1 hq2]
    cases qs with
    | nil => simp [wire]
    | cons q2 qs2 =>
      have hlenw := wire_length (newMsgs (q2 :: qs2))
      simp only [newMsgs, List.map_cons, List.length_cons, List.length_map] at hlenw
      rw [if_neg (by simp only [List.map_cons]; omega)]
      have := ih f (acc ++ [NewMsg q.1 q.2]) spare (by simp)
        (by simp only [List.length_cons] at hf ⊢; omega)
        (fun x hx => hs x (List.mem_cons_of_mem _ hx))
        (fun x hx => hl x (List.mem_cons_of_mem _ hx))
      simp only [newMsgs, List.map_cons, List.append_assoc, List.singleton_append] at this ⊢
      exact this

theorem Uint32_PutUint32_nil (v : Nat) (h : v < 2 ^ 32) : Uint32 (PutUint32 v) = some v := by
  have := Uint32_PutUint32 v h []
  rwa [List.append_nil] at this

theorem Encode_seq_field (m : message) (h : m.seq < 2 ^ 32) :
    Uint32 (m.Encode.1.take 4) = some m.seq := by
  rw [Encode_eq]
  show Uint32 (List.take 4 (PutUint32 m.seq ++ PutUint32 m.length ++ m.msg)) = some m.seq
  rw [List.append_assoc, List.take_left' (PutUint32_length _), Uint32_PutUint32_nil _ h]

theorem Encode_len_field (m : message) (h : m.length < 2 ^ 32) :
    Uint32 ((m.Encode.1.drop 4).take 4) = some m.length := by
  rw [Encode_eq]
  show Uint32 (List.take 4 (List.drop 4 (PutUint32 m.seq ++ PutUint32 m.length ++ m.msg)))
    = some m.length
  rw [List.append_assoc, List.drop_left' (PutUint32_length _),
    List.take_left' (PutUint32_length _), Uint32_PutUint32_nil _ h]

theorem Encode_len_field_NewMsg (seq : Nat) (p : List Byte) :
    Uint32 (((NewMsg seq p).Encode.1.drop 4).take 4) = some (p.length % 2 ^ 32) :=
  Encode_len_field (NewMsg seq p) (Nat.mod_lt _ (by norm_num))

theorem Encode_payload (m : message) : m.Encode.1.drop 8 = m.msg := by
  rw [Encode_eq]
  exact List.drop_left' (by simp only [List.length_append, PutUint32_length])

theorem loop_frame_panic (fuel seq : Nat) (acc : List message) (p rest spare : List Byte)
    (hseq : seq < 2 ^ 32) (hlen : 2 ^ 31 ≤ p.length % 2 ^ 32) :
    DecodeMsgsLoop (fuel + 1) acc ⟨(NewMsg seq p).Encode.1 ++ rest, spare⟩
      = some (.panic .makesliceLen) := by
  conv_lhs => unfold DecodeMsgsLoop
  rw [Decode_NewMsg_panic _ seq p rest spare hseq hlen]

theorem inv_NewServer {H : Type} (addr : String) (protocol : Bool) :
    (NewServer addr protocol : Server H).inv :=
  ⟨by simp [NewServer], by simp [NewServer], rfl⟩

theorem inv_not_closed {H : Type} (srv : Server H) (h : srv.inv) (ho : srv.once = false) :
    srv.close = .live ∧ (srv.Hub = none ∨ srv.hubMutex = false) := by
  obtain ⟨A, P, L, C, O, M, Hb⟩ := srv
  obtain ⟨h1, h2, h3⟩ := h
  simp only at h1 h2 h3 ho
  subst h3 ho
  cases C <;> simp_all

theorem inv_Destroy {H : Type} (ops : HubOps H) (srv : Server H) (h : srv.inv) :
    (srv.Destroy ops).srv.inv := by
  obtain ⟨A, P, L, C, O, M, Hb⟩ := srv
  obtain ⟨h1, h2, h3⟩ := h
  simp only at h1 h2 h3
  subst h3
  cases Hb <;> simp_all [Server.Destroy, Server.inv]

theorem inv_Serve {H : Type} (srv : Server H) (script : List AcceptResult) (recv : Bool)
    (h : srv.inv) : (srv.Serve script recv).srv.inv := by
  obtain ⟨A, P, L, C, O, M, Hb⟩ := srv
  simp only [Server.Serve, Server.inv] at h ⊢
  split
  · exact h
  · cases C <;> cases recv <;> simp_all

theorem inv_Close {H : Type} (ops : HubOps H) (srv : Server H) (h : srv.inv) :
    (srv.Close ops).outcome = .returned none ∧ (srv.Close ops).srv.inv ∧
      (srv.Close ops).srv.once = true := by
  obtain ⟨A, P, L, C, O, M, Hb⟩ := srv
  obtain ⟨h1, h2, h3⟩ := h
  simp only at h1 h2 h3
  subst h3
  cases O <;> cases C <;> cases Hb <;>
    simp_all [Server.Close, Server.Destroy, Server.inv]

/-! ## The codec claims -/

/-- Below `2^31` payload bytes the round trip does hold: for every `uint32`
sequence number and every such payload, `Encode` of `NewMsg(seq, payload)`
reports no error and `Decode` of the encoded bytes (whatever the spare
capacity of the buffer and the previous contents of the receiver) returns a nil
error and leaves a message whose `seq` is `seq`, whose `length` is
`len(payload)` and whose `Msg()` is `payload`. -/
theorem Decode_Encode_below_2pow31 (m0 : message) (seq : Nat) (payload spare : List Byte)
    (hseq : seq < 2 ^ 32) (hlen : payload.length < 2 ^ 31) :
    (NewMsg seq payload).Encode.2 = none ∧
    ∃ m1, m0.Decode ⟨(NewMsg seq payload).Encode.1, spare⟩ = .done (m1, none) ∧
      m1.seq = seq ∧ m1.length = payload.length ∧ m1.Msg = payload := by
  refine ⟨rfl, NewMsg seq payload, ?_, rfl, ?_, rfl⟩
  · have := Decode_NewMsg m0 seq payload [] spare hseq hlen
    rwa [List.append_nil] at this
  · exact Nat.mod_eq_of_lt (by omega)

/-- Claim C1 fails on the code: for every `uint32` sequence number and every
payload of `2^31` up to `2^32 - 1` bytes, which fits the unsigned 32-bit length
field, `Encode` of `NewMsg(seq, payload)` reports no error but `Decode` of the
encoded bytes panics in `make([]byte, n)`, because `int32(m.length)` is
negative. -/
theorem Decode_Encode_roundtrip_panics (m0 : message) (seq : Nat) (payload spare : List Byte)
    (hseq : seq < 2 ^ 32) (hlo : 2 ^ 31 ≤ payload.length) (hhi : payload.length < 2 ^ 32) :
    (NewMsg seq payload).Encode.2 = none ∧
    m0.Decode ⟨(NewMsg seq payload).Encode.1, spare⟩ = .panic .makesliceLen := by
  refine ⟨rfl, ?_⟩
  have := Decode_NewMsg_panic m0 seq payload [] spare hseq
    (by rw [Nat.mod_eq_of_lt hhi]; exact hlo)
  rwa [List.append_nil] at this

/-- Claim C1 at `seq = 0` and a payload of `2^31` zero bytes. -/
theorem Decode_Encode_roundtrip_panics_witness :
    0 < 2 ^ 32 ∧ 2 ^ 31 ≤ (List.replicate (2 ^ 31) (0 : Byte)).length ∧
    (List.replicate (2 ^ 31) (0 : Byte)).length < 2 ^ 32 ∧
    (NewMsg 0 (List.replicate (2 ^ 31) 0)).Encode.2 = none ∧
    (NewMsg 0 []).Decode ⟨(NewMsg 0 (List.replicate (2 ^ 31) 0)).Encode.1, []⟩
      = .panic .makesliceLen :=
  ⟨by norm_num, by rw [List.length_replicate], by rw [List.length_replicate]; norm_num,
    Decode_Encode_roundtrip_panics (NewMsg 0 []) 0 (List.replicate (2 ^ 31) 0) []
      (by norm_num) (by rw [List.length_replicate])
      (by rw [List.length_replicate]; norm_num)⟩

/-- With every payload below `2^31` bytes the scan does what claim C2 says: for
every `N ≥ 1` and every list of `N` messages built by `NewMsg` from `uint32`
sequence numbers and such payloads, every `Encode` reports no error and
`DecodeMsgs` of the concatenated encodings returns a nil error and exactly
those `N` messages, in order. -/
theorem DecodeMsgs_wire_below_2pow31 (ps : List (Nat × List Byte)) (spare : List Byte)
    (hN : 1 ≤ ps.length) (hseq : ∀ q ∈ ps, q.1 < 2 ^ 32)
    (hlen : ∀ q ∈ ps, q.2.length < 2 ^ 31) :
    (∀ m ∈ newMsgs ps, m.Encode.2 = none) ∧
    DecodeMsgs ⟨wire (newMsgs ps), spare⟩ = some (.done (newMsgs ps, none)) := by
  refine ⟨fun _ _ => rfl, ?_⟩
  have hne : ps ≠ [] := by
    intro h; rw [h] at hN; simp at hN
  have hw := wire_length (newMsgs ps)
  have hfuel : ps.length ≤ (⟨wire (newMsgs ps), spare⟩ : Slice).len / 8 + 1 := by
    simp only [newMsgs, List.length_map] at hw
    simp only [Slice.len, newMsgs]
    omega
  have := loop_wire ps _ [] spare hne hfuel hseq hlen
  rwa [List.nil_append] at this

/-- Claim C2 fails on the code: for every list of messages built by `NewMsg`
whose first payload has `2^31` up to `2^32 - 1` bytes, `DecodeMsgs` of the
concatenated `Encode` outputs panics in `make([]byte, n)` inside its first
call of `Decode` (the `int32(m.length)` count is negative) and returns no
message. -/
theorem DecodeMsgs_wire_panics (seq : Nat) (payload : List Byte)
    (qs : List (Nat × List Byte)) (spare : List Byte)
    (hseq : seq < 2 ^ 32) (hlo : 2 ^ 31 ≤ payload.length) (hhi : payload.length < 2 ^ 32) :
    DecodeMsgs ⟨wire (newMsgs ((seq, payload) :: qs)), spare⟩
      = some (.panic .makesliceLen) := by
  unfold DecodeMsgs
  exact loop_frame_panic _ seq [] payload (wire (newMsgs qs)) spare hseq
    (by rw [Nat.mod_eq_of_lt hhi]; exact hlo)

/-- Claim C2 at `N = 1`: the single message `NewMsg(0, payload)` with a
payload of `2^31` zero bytes. -/
theorem DecodeMsgs_wire_panics_witness :
    0 < 2 ^ 32 ∧ 2 ^ 31 ≤ (List.replicate (2 ^ 31) (0 : Byte)).length ∧
    (List.replicate (2 ^ 31) (0 : Byte)).length < 2 ^ 32 ∧
    DecodeMsgs ⟨wire (newMsgs [(0, List.replicate (2 ^ 31) 0)]), []⟩
      = some (.panic .makesliceLen) :=
  ⟨by norm_num, by rw [List.length_replicate], by rw [List.length_replicate]; norm_num,
    DecodeMsgs_wire_panics 0 (List.replicate (2 ^ 31) 0) [] [] (by norm_num)
      (by rw [List.length_replicate]) (by rw [List.length_replicate]; norm_num)⟩

/-- Claim C3, amended: for every `uint32` sequence number and every payload,
`Encode` of `NewMsg(seq, payload)` returns a nil error and `8 + len(payload)`
bytes whose bytes 0..3 are `seq` in big-endian, whose bytes 4..7 are
`len(payload) mod 2^32` in big-endian (so `len(payload)` itself when that is
below `2^32`) and whose remaining bytes are the payload. -/
theorem Encode_layout (seq : Nat) (payload : List Byte) (hseq : seq < 2 ^ 32) :
    (NewMsg seq payload).Encode.2 = none ∧
    (NewMsg seq payload).Encode.1.length = 8 + payload.length ∧
    Uint32 ((NewMsg seq payload).Encode.1.take 4) = some seq ∧
    Uint32 (((NewMsg seq payload).Encode.1.drop 4).take 4) = some (payload.length % 2 ^ 32) ∧
    (payload.length < 2 ^ 32 →
      Uint32 (((NewMsg seq payload).Encode.1.drop 4).take 4) = some payload.length) ∧
    (NewMsg seq payload).Encode.1.drop 8 = payload := by
  refine ⟨rfl, Encode_length _, Encode_seq_field _ hseq, Encode_len_field_NewMsg _ _, ?_,
    Encode_payload _⟩
  intro hp
  rw [Encode_len_field_NewMsg]
  exact congrArg some (Nat.mod_eq_of_lt hp)

/-- Claim C3, amended, at `seq = 0` and the payload "welcome". -/
theorem Encode_layout_witness :
    0 < 2 ^ 32 ∧
    (NewMsg 0 [119, 101, 108, 99, 111, 109, 101]).Encode.2 = none ∧
    (NewMsg 0 [119, 101, 108, 99, 111, 109, 101]).Encode.1.length
      = 8 + ([119, 101, 108, 99, 111, 109, 101] : List Byte).length ∧
    Uint32 ((NewMsg 0 [119, 101, 108, 99, 111, 109, 101]).Encode.1.take 4) = some 0 ∧
    Uint32 (((NewMsg 0 [119, 101, 108, 99, 111, 109, 101]).Encode.1.drop 4).take 4)
      = some (([119, 101, 108, 99, 111, 109, 101] : List Byte).length % 2 ^ 32) ∧
    (([119, 101, 108, 99, 111, 109, 101] : List Byte).length < 2 ^ 32 →
      Uint32 (((NewMsg 0 [119, 101, 108, 99, 111, 109, 101]).Encode.1.drop 4).take 4)
        = some ([119, 101, 108, 99, 111, 109, 101] : List Byte).length) ∧
    (NewMsg 0 [119, 101, 108, 99, 111, 109, 101]).Encode.1.drop 8
      = [119, 101, 108, 99, 111, 109, 101] :=
  ⟨by norm_num, Encode_layout 0 [119, 101, 108, 99, 111, 109, 101] (by norm_num)⟩

/-- Claim C3 as stated fails: for a payload of `2^32` zero bytes the bytes
4..7 of the encoding are the big-endian form of 0, not of `len(payload)`. -/
theorem Encode_layout_counterexample :
    Uint32 (((NewMsg 0 (List.replicate (2 ^ 32) 0)).Encode.1.drop 4).take 4)
      ≠ some (List.replicate (2 ^ 32) (0 : Byte)).length := by
  rw [Encode_len_field_NewMsg, List.length_replicate]
  norm_num

/-- Claim C4 fails on the code: on a buffer of at least eight bytes whose
length field exceeds the number of bytes after the header, `Decode` never
returns an error; it panics when the field is `2^31` or more and otherwise
returns nil with the length field set and an empty payload. -/
theorem Decode_truncated (m : message) (b0 b1 b2 b3 b4 b5 b6 b7 : Byte)
    (rest spare : List Byte) (h : rest.length < be32 b4 b5 b6 b7) :
    m.Decode ⟨b0 :: b1 :: b2 :: b3 :: b4 :: b5 :: b6 :: b7 :: rest, spare⟩ =
      if 2 ^ 31 ≤ be32 b4 b5 b6 b7 then .panic .makesliceLen
      else .done (⟨be32 b0 b1 b2 b3, be32 b4 b5 b6 b7, []⟩, none) := by
  rw [Decode_cons8, if_neg (show ¬ be32 b4 b5 b6 b7 ≤ rest.length by omega)]

/-- Claim C4 at the buffer `00 00 00 00 00 00 00 05 01 02`: five payload bytes
declared, two present, and `Decode` returns nil with an empty payload. -/
theorem Decode_truncated_witness :
    ([1, 2] : List Byte).length < be32 0 0 0 5 ∧
    (NewMsg 0 []).Decode ⟨[0, 0, 0, 0, 0, 0, 0, 5, 1, 2], []⟩ = .done (⟨0, 5, []⟩, none) :=
  ⟨by decide, (Decode_truncated (NewMsg 0 []) 0 0 0 0 0 0 0 5 [1, 2] [] (by decide)).trans
    (by decide)⟩

/-- Claim C5 fails on the code: on every buffer shorter than eight bytes,
whatever its capacity, `Decode` ends in a slice-bounds panic and returns no
error. -/
theorem Decode_below_header (m : message) (b : Slice) (h : b.len < 8) :
    m.Decode b = .panic .sliceBounds :=
  Decode_short m b h

/-- Claim C5 at the empty buffer. -/
theorem Decode_below_header_witness :
    (⟨[], []⟩ : Slice).len < 8 ∧ (NewMsg 0 []).Decode ⟨[], []⟩ = .panic .sliceBounds :=
  ⟨by decide, Decode_below_header (NewMsg 0 []) ⟨[], []⟩ (by decide)⟩

/-- Claim C6 fails on the code: on the empty buffer, whatever its capacity,
`DecodeMsgs` panics in its first call of `Decode`. -/
theorem DecodeMsgs_empty (spare : List Byte) :
    DecodeMsgs ⟨[], spare⟩ = some (.panic .sliceBounds) := by
  simp only [DecodeMsgs, DecodeMsgsLoop, Slice.len, List.length_nil, Nat.zero_div, Nat.zero_add]
  rw [Decode_short _ _ (by simp [Slice.len])]

/-- Claim C7 fails on the code: a buffer that is a lone header declaring
`len` payload bytes, `0 < len < 2^31`, with none following, makes `DecodeMsgs`
return a nil error and one message with that length field and an empty
payload. -/
theorem DecodeMsgs_drops_error (seq len : Nat) (spare : List Byte)
    (hseq : seq < 2 ^ 32) (h0 : 0 < len) (hlen : len < 2 ^ 31) :
    DecodeMsgs ⟨PutUint32 seq ++ PutUint32 len, spare⟩
      = some (.done ([⟨seq, len, []⟩], none)) := by
  have hD : ∀ m0 : message, m0.Decode ⟨PutUint32 seq ++ PutUint32 len, spare⟩
      = .done (⟨seq, len, []⟩, none) := by
    intro m0
    simp only [PutUint32, List.cons_append, List.nil_append]
    rw [Decode_cons8, be32_byte _ hseq, be32_byte _ (by omega), if_neg (by omega),
      if_neg (by simp only [List.length_nil]; omega)]
  have hfuel : (⟨PutUint32 seq ++ PutUint32 len, spare⟩ : Slice).len / 8 + 1 = 1 + 1 := by
    simp [Slice.len, PutUint32]
  unfold DecodeMsgs
  rw [hfuel]
  unfold DecodeMsgsLoop
  rw [hD]
  simp only [message.Len, List.length_nil, Nat.add_zero]
  rw [sliceFrom_eq _ _ (by simp [Slice.len, msgIdx, PutUint32])]
  simp [Slice.len, msgIdx, PutUint32]

/-- Claim C7 at the buffer `00 00 00 00 00 00 00 05`. -/
theorem DecodeMsgs_drops_error_witness :
    0 < 2 ^ 32 ∧ 0 < 5 ∧ 5 < 2 ^ 31 ∧
    DecodeMsgs ⟨[0, 0, 0, 0, 0, 0, 0, 5], []⟩ = some (.done ([⟨0, 5, []⟩], none)) :=
  ⟨by norm_num, by norm_num, by norm_num,
    DecodeMsgs_drops_error 0 5 [] (by norm_num) (by norm_num) (by norm_num)⟩

/-- Claim C10: on every buffer, a call of `Decode` that returns leaves
`b[8+Len():]` in range and at least eight bytes shorter than `b`, and the loop
of `DecodeMsgs` ends (by returning or by a panic inside `Decode`) within
`len(b)/8 + 1` calls of `Decode`, with the same result for any larger number
of allowed iterations. -/
theorem DecodeMsgs_terminates (b : Slice) :
    (∀ (m m1 : message) (e : Option IOErr), m.Decode b = .done (m1, e) →
      ∃ b1, b.sliceFrom (msgIdx + m1.Len) = some b1 ∧
        b1.len + (msgIdx + m1.Len) = b.len ∧ b1.len + 8 ≤ b.len) ∧
    (∃ r, ∀ fuel, b.len / 8 + 1 ≤ fuel → DecodeMsgsLoop fuel [] b = some r) := by
  constructor
  · intro m m1 e h
    obtain ⟨_, hlen⟩ := Decode_done m m1 b e h
    refine ⟨_, sliceFrom_eq b _ hlen, ?_, ?_⟩ <;>
      · simp only [Slice.len, List.length_drop, msgIdx] at hlen ⊢
        omega
  · obtain ⟨r, hr⟩ := loop_terminates (b.len / 8 + 1) [] b (by omega)
    refine ⟨r, fun fuel hf => ?_⟩
    obtain ⟨k, rfl⟩ : ∃ k, fuel = b.len / 8 + 1 + k := ⟨fuel - (b.len / 8 + 1), by omega⟩
    exact loop_mono _ k [] b r hr

/-- Claim C10 at a nine byte buffer: one frame with an empty payload, then a
stray byte; the scan ends within two calls of `Decode`. -/
theorem DecodeMsgs_terminates_witness :
    ∃ r, ∀ fuel, 2 ≤ fuel → DecodeMsgsLoop fuel [] ⟨[0, 0, 0, 1, 0, 0, 0, 0, 9], []⟩ = some r :=
  (DecodeMsgs_terminates ⟨[0, 0, 0, 1, 0, 0, 0, 0, 9], []⟩).2

/-! ## The shutdown claims -/

/-- Claim C8, amended: on every server state on which `Close` has not yet
run, whose `close` channel is open and whose `hubMutex` is free when a hub is
set, two calls of `Close` in sequence act as one: the first returns nil, closes
the channel exactly once and invokes the hub's `Destroy` exactly once if
`srv.Hub` is non-nil and not at all if it is nil; the second returns nil,
performs no action, does not panic and leaves the server as the first call left
it. On every server state on which `Close` has already run, both calls return
nil, perform no action and change nothing. -/
theorem Close_twice {H : Type} (ops : HubOps H) (srv : Server H) :
    (srv.once = false → srv.close = .live → (srv.Hub = none ∨ srv.hubMutex = false) →
      (srv.Close ops).outcome = .returned none ∧
      (srv.Close ops).effects
        = .closeChan :: (if srv.Hub.isSome then [.hubDestroy] else []) ∧
      (srv.Close ops).srv.close = .closed ∧
      (srv.Close ops).srv.Close ops = ⟨(srv.Close ops).srv, [], .returned none⟩) ∧
    (srv.once = true →
      srv.Close ops = ⟨srv, [], .returned none⟩ ∧
      (srv.Close ops).srv.Close ops = ⟨srv, [], .returned none⟩) := by
  obtain ⟨A, P, L, C, O, M, Hb⟩ := srv
  constructor
  · intro h1 h2 h3
    simp only at h1 h2 h3
    subst h1 h2
    cases Hb with
    | none => simp [Server.Close, Server.Destroy]
    | some h =>
      have hM : M = false := by simpa using h3
      subst hM
      simp [Server.Close, Server.Destroy]
  · intro h1
    simp only at h1
    subst h1
    simp [Server.Close]

/-- Claim C8, amended, at a fresh server whose hub holds three sessions, and
at the same server after a first `Close`. -/
theorem Close_twice_witness :
    (({ (NewServer ":9573" true : Server (List Nat)) with Hub := some [1, 2, 3] }).Close
        listHub).outcome = .returned none ∧
    (({ (NewServer ":9573" true : Server (List Nat)) with Hub := some [1, 2, 3] }).Close
        listHub).effects = [.closeChan, .hubDestroy] ∧
    ((({ (NewServer ":9573" true : Server (List Nat)) with Hub := some [1, 2, 3] }).Close
        listHub).srv.Close listHub).effects = [] ∧
    ((({ (NewServer ":9573" true : Server (List Nat)) with Hub := some [1, 2, 3] }).Close
        listHub).srv.Close listHub).outcome = .returned none :=
  have h := (Close_twice listHub
    ({ (NewServer ":9573" true : Server (List Nat)) with Hub := some [1, 2, 3] })).1
    rfl rfl (Or.inr rfl)
  ⟨h.1, h.2.1, congrArg Step.effects h.2.2.2, congrArg Step.outcome h.2.2.2⟩

/-- Claim C8 as stated fails, in each of these server states. On the server
that `NewServer` returns, whose `Hub` is nil, two calls of `Close` invoke the
hub's `Destroy` zero times. On a server on which `Close` has run and a hub was
set afterwards, two calls close the channel zero times and invoke `Destroy`
zero times. On a server whose `close` channel is nil (a `Server` not built by
`NewServer`) or already closed with the `Once` unfired, the first call panics.
On a server with a hub whose `hubMutex` is held, the first call never
returns. -/
theorem Close_twice_counterexample :
    (((NewServer ":9573" true : Server (List Nat)).Close listHub).effects ++
      (((NewServer ":9573" true : Server (List Nat)).Close listHub).srv.Close
        listHub).effects).count .hubDestroy = 0 ∧
    ((({ ((NewServer ":9573" true : Server (List Nat)).Close listHub).srv with
          Hub := some [1] }).Close listHub).effects ++
      ((({ ((NewServer ":9573" true : Server (List Nat)).Close listHub).srv with
          Hub := some [1] }).Close listHub).srv.Close listHub).effects) = [] ∧
    (({ (NewServer ":9573" true : Server (List Nat)) with close := .nilChan }).Close
        listHub).outcome = .panicked .closeOfNilChannel ∧
    (({ (NewServer ":9573" true : Server (List Nat)) with close := .closed }).Close
        listHub).outcome = .panicked .closeOfClosedChannel ∧
    (({ (NewServer ":9573" true : Server (List Nat)) with
          Hub := some [1], hubMutex := true }).Close listHub).outcome = .blocked :=
  ⟨by decide, by decide, by decide, by decide, by decide⟩

/-- Claim C9 fails on the code: when `srv.close` is already closed, the
first iteration of the loop of `Serve` takes the receive branch without
accepting and returns nil, and the deferred function, after closing the
listener, panics in its send on the closed channel, so `Serve` panics instead
of returning nil. -/
theorem Serve_after_Close {H : Type} (srv : Server H) (script : List AcceptResult)
    (recv : Bool) (h : srv.close = .closed) :
    (srv.Serve script recv).outcome = .panicked .sendOnClosedChannel ∧
    (srv.Serve script recv).effects = [.listenerClose] := by
  cases script <;> simp [Server.Serve, serveLoop, h]

/-- Claim C9 at the server left by `NewServer` followed by `Close`, with one
connection waiting to be accepted. -/
theorem Serve_after_Close_witness :
    ((NewServer ":9573" true : Server (List Nat)).Close listHub).srv.close = .closed ∧
    ((((NewServer ":9573" true : Server (List Nat)).Close listHub).srv).Serve [.conn 1]
        true).outcome = .panicked .sendOnClosedChannel ∧
    ((((NewServer ":9573" true : Server (List Nat)).Close listHub).srv).Serve [.conn 1]
        true).effects = [.listenerClose] :=
  ⟨by decide, Serve_after_Close _ [.conn 1] true (by decide)⟩

end TcpZero
